import Mathlib

/-!
Verification of the fantasy-football web-scraping pipeline's core logic:
the table builder, the staleness gate, the record assembler, the crawl
cursor, the verification reporter, and the persistence write path.

The definitions are shallow embeddings of the Python source.  The browser
automation collaborator is modelled as already-resolved inputs (token
streams, lookups and counts); file-system effects are modelled as explicit
state (a map for the store, a flag for a deletion).
-/

namespace FplScrape

/-- A document element as exposed by the automation collaborator:
a tag name and the element's text (`webscraper.py` iterates WebElements
and branches on `tag_name`). -/
structure Elem where
  tag : String
  text : String
deriving DecidableEq

/-- The single failure mode of the table builder: the Python code indexes
`data_list[i - 1]` while `data_list` is empty, which raises; the spec names
this rejection `MalformedTableError`. -/
inductive TableErr where
  | malformed
deriving DecidableEq

/-- Python list-index resolution: a negative index counts from the end,
and an out-of-range index raises (modelled as `none`). -/
def pyResolve (n : Nat) (k : Int) : Option Nat :=
  let j : Int := if k < 0 then (n : Int) + k else k
  if 0 ≤ j ∧ j < (n : Int) then some j.toNat else none

/-- `data_list[k].append(t)` with Python index semantics
(`carve_table` / `get_table` do `data_list[i - 1].append(c.text)`). -/
def pyAppendAt (rows : List (List String)) (k : Int) (t : String) :
    Except TableErr (List (List String)) :=
  match pyResolve rows.length k with
  | none => .error .malformed
  | some j => .ok (rows.set j (rows.getD j [] ++ [t]))

/-- Loop body state of `carve_table` (`webscraper.py` lines 397-425) and
`get_table` (`webscraping_project.py` lines 754-780): counter `i` and the
accumulated `data_list`. -/
def carve_go (i : Nat) (rows : List (List String)) :
    List Elem → Except TableErr (List (List String))
  | [] => .ok rows
  | c :: cs =>
    if c.tag = "tr" then
      carve_go (i + 1) (rows ++ [[]]) cs
    else if c.tag = "th" ∨ c.tag = "td" then
      match pyAppendAt rows ((i : Int) - 1) c.text with
      | .error e => .error e
      | .ok rows2 => carve_go i rows2 cs
    else
      carve_go i rows cs

/-- `carve_table(children)`: `i = 0`, `data_list = []`, then the
single pass over the elements. -/
def carve_table (children : List Elem) : Except TableErr (List (List String)) :=
  carve_go 0 [] children

/-- Append a string to the last row; identity on an empty row list. -/
def appendLast : List (List String) → String → List (List String)
  | [], _ => []
  | [r], t => [r ++ [t]]
  | r :: r2 :: rs, t => r :: appendLast (r2 :: rs) t

/-- Modelled from the spec's words (TableBuilder algorithm, for the
refinement comparison): stream through tokens; `tr` appends a new empty
row; `th`/`td` appends the text to the most recently started row; anything
else is ignored. -/
def build_spec_go (rows : List (List String)) : List Elem → List (List String)
  | [] => rows
  | c :: cs =>
    if c.tag = "tr" then build_spec_go (rows ++ [[]]) cs
    else if c.tag = "th" ∨ c.tag = "td" then build_spec_go (appendLast rows c.text) cs
    else build_spec_go rows cs

/-- Modelled from the spec's words: the one-pass table build. -/
def build_spec (ts : List Elem) : List (List String) := build_spec_go [] ts

/-- A cell token occurs before any row-start token. -/
def hasOrphanCell : List Elem → Bool
  | [] => false
  | c :: cs =>
    if c.tag = "tr" then false
    else if c.tag = "th" ∨ c.tag = "td" then true
    else hasOrphanCell cs

theorem appendLast_length (rows : List (List String)) (t : String) :
    (appendLast rows t).length = rows.length := by
  induction rows with
  | nil => rfl
  | cons r rs ih =>
    cases rs with
    | nil => rfl
    | cons r2 rs2 => simpa [appendLast] using ih

theorem set_getD_last (t : String) :
    ∀ rows : List (List String), rows ≠ [] →
      rows.set (rows.length - 1) (rows.getD (rows.length - 1) [] ++ [t]) =
        appendLast rows t := by
  intro rows
  induction rows with
  | nil => intro h; exact absurd rfl h
  | cons r rs ih =>
    intro _
    cases rs with
    | nil => rfl
    | cons r2 rs2 =>
      have h2 : (r2 :: rs2 : List (List String)) ≠ [] := by simp
      have := ih h2
      simp only [List.length_cons, appendLast]
      have hl : r2 :: rs2 ≠ [] := h2
      simp only [List.getD, List.get?_eq_getElem?] at this ⊢
      simpa [List.set, Nat.succ_sub_one] using this

theorem pyAppendAt_last (rows : List (List String)) (t : String) (h : rows ≠ []) :
    pyAppendAt rows ((rows.length : Int) - 1) t = .ok (appendLast rows t) := by
  have hn : 1 ≤ rows.length := by
    cases rows with
    | nil => exact absurd rfl h
    | cons a l => simp
  have hres : pyResolve rows.length ((rows.length : Int) - 1) = some (rows.length - 1) := by
    unfold pyResolve
    have hk : ¬ ((rows.length : Int) - 1 < 0) := by omega
    rw [if_neg hk]
    have hb : (0 : Int) ≤ (rows.length : Int) - 1 ∧
        (rows.length : Int) - 1 < (rows.length : Int) := by omega
    rw [if_pos hb]
    congr 1
    omega
  unfold pyAppendAt
  rw [hres]
  exact congrArg Except.ok (set_getD_last t rows h)

theorem carve_go_ne_nil :
    ∀ (ts : List Elem) (rows : List (List String)), rows ≠ [] →
      carve_go rows.length rows ts = .ok (build_spec_go rows ts) := by
  intro ts
  induction ts with
  | nil => intro rows _; rfl
  | cons c cs ih =>
    intro rows hrows
    by_cases htr : c.tag = "tr"
    · have hlen : (rows ++ [[]]).length = rows.length + 1 := by simp
      have hne : rows ++ [([] : List String)] ≠ [] := by simp
      simp only [carve_go, build_spec_go, if_pos htr]
      rw [← hlen]
      exact ih (rows ++ [[]]) hne
    · by_cases hcell : c.tag = "th" ∨ c.tag = "td"
      · simp only [carve_go, build_spec_go, if_neg htr, if_pos hcell]
        rw [pyAppendAt_last rows c.text hrows]
        have hne : appendLast rows c.text ≠ [] := by
          intro habs
          have := appendLast_length rows c.text
          rw [habs] at this
          cases rows with
          | nil => exact hrows rfl
          | cons a l => simp at this
        have hlen := appendLast_length rows c.text
        rw [← hlen]
        exact ih (appendLast rows c.text) hne
      · simp only [carve_go, build_spec_go, if_neg htr, if_neg hcell]
        exact ih rows hrows

theorem carve_go_nil_of_wf :
    ∀ ts : List Elem, hasOrphanCell ts = false →
      carve_go 0 [] ts = .ok (build_spec_go [] ts) := by
  intro ts
  induction ts with
  | nil => intro _; rfl
  | cons c cs ih =>
    intro hwf
    by_cases htr : c.tag = "tr"
    · simp only [carve_go, build_spec_go, if_pos htr]
      have : ([([] : List String)]).length = 1 := rfl
      have h := carve_go_ne_nil cs [[]] (by simp)
      simpa using h
    · by_cases hcell : c.tag = "th" ∨ c.tag = "td"
      · exfalso
        simp only [hasOrphanCell, if_neg htr, if_pos hcell] at hwf
        exact Bool.noConfusion hwf
      · simp only [hasOrphanCell, if_neg htr, if_neg hcell] at hwf
        simp only [carve_go, build_spec_go, if_neg htr, if_neg hcell]
        exact ih hwf

/-- Claim C1: the table builder is a single left-to-right pass over the
token stream: each row-start token (`tr`) appends a new empty row and
increments the row index, each cell token (`th`/`td`) appends its text to
the most recently started row (`data_list[i - 1]`), and every other token
is ignored; in particular
`[RowStart, Cell "a", Cell "b", RowStart, Cell "c"]` yields
`[["a","b"], ["c"]]` and the empty stream yields the empty table. -/
theorem carve_table_one_pass :
    carve_table [] = .ok [] ∧
    carve_table [⟨"tr", ""⟩, ⟨"th", "a"⟩, ⟨"td", "b"⟩, ⟨"tr", ""⟩, ⟨"td", "c"⟩] =
      .ok [["a", "b"], ["c"]] ∧
    ∀ ts : List Elem, hasOrphanCell ts = false →
      carve_table ts = .ok (build_spec ts) := by
  refine ⟨rfl, rfl, ?_⟩
  intro ts hwf
  exact carve_go_nil_of_wf ts hwf

theorem carve_table_one_pass_witness :
    hasOrphanCell [⟨"tr", ""⟩, ⟨"th", "x"⟩] = false ∧
      carve_table [⟨"tr", ""⟩, ⟨"th", "x"⟩] =
        .ok (build_spec [⟨"tr", ""⟩, ⟨"th", "x"⟩]) :=
  ⟨by decide, carve_table_one_pass.2.2 [⟨"tr", ""⟩, ⟨"th", "x"⟩] (by decide)⟩

/-- Claim C3: any token stream in which a cell token (`th`/`td`) occurs
before any row-start token (`tr`) is rejected: the build raises the
malformed-table error (the source's `data_list[i - 1]` with `i = 0` on an
empty `data_list`) instead of producing a table. -/
theorem carve_table_rejects_orphan :
    ∀ ts : List Elem, hasOrphanCell ts = true →
      carve_table ts = .error .malformed := by
  intro ts
  induction ts with
  | nil => intro h; simp [hasOrphanCell] at h
  | cons c cs ih =>
    intro h
    by_cases htr : c.tag = "tr"
    · simp only [hasOrphanCell, if_pos htr] at h
      exact Bool.noConfusion h
    · by_cases hcell : c.tag = "th" ∨ c.tag = "td"
      · show carve_go 0 [] (c :: cs) = .error .malformed
        simp only [carve_go, if_neg htr, if_pos hcell]
        rfl
      · simp only [hasOrphanCell, if_neg htr, if_neg hcell] at h
        show carve_go 0 [] (c :: cs) = .error .malformed
        simp only [carve_go, if_neg htr, if_neg hcell]
        exact ih h

theorem carve_table_rejects_orphan_witness :
    hasOrphanCell [⟨"td", "x"⟩] = true ∧
      carve_table [⟨"td", "x"⟩] = .error .malformed :=
  ⟨by decide, carve_table_rejects_orphan [⟨"td", "x"⟩] (by decide)⟩

/-!
Staleness gate.  `check_plyr_scraped` takes the state of the persisted
record for the entity: `none` models the `FileNotFoundError` branch (no
record on disk), `some delta` models an existing record whose `Last
Scraped` date is `delta` whole days before now (the source computes
`(datetime.now() - last_scraped).days` from the record's date).  The
result is the pair `(skip, deletedStaleFile)`: `skip` is the Boolean the
method returns, `deletedStaleFile` records whether `os.remove` ran.
-/

/-- `check_plyr_scraped` of `webscraping_project.py` lines 548-580 (and of
`fpl_webscraper.py` lines 378-410): the next-day-refresh variant, whose
test is `delta > 1`. -/
def check_plyr_scraped (old : Option Nat) : Bool × Bool :=
  match old with
  | none => (false, false)
  | some delta => if delta > 1 then (false, true) else (true, false)

/-- `check_plyr_scraped` of `project/fpl_webscraper.py` lines 262-297: the
weekly-refresh variant, whose test is `delta >= 7`. -/
def check_plyr_scraped_weekly (old : Option Nat) : Bool × Bool :=
  match old with
  | none => (false, false)
  | some delta => if delta ≥ 7 then (false, true) else (true, false)

/-- Modelled from the spec's words (StalenessGate contract, for the
refinement comparison): no record means collect; `delta >= staleAfterDays`
means delete the stale record and collect; otherwise skip. -/
def shouldSkip (staleAfterDays : Nat) (old : Option Nat) : Bool × Bool :=
  match old with
  | none => (false, false)
  | some delta => if delta ≥ staleAfterDays then (false, true) else (true, false)

/-- Counterexample to claim C2: in the next-day-refresh variant the test is
`delta > 1`, not `delta >= 1`, so a record collected exactly 1 day ago is
skipped and its file kept, while the claimed `staleAfterDays = 1` contract
demands deletion and re-collection. -/
theorem check_plyr_scraped_day_boundary_cex :
    check_plyr_scraped (some 1) = (true, false) ∧
      shouldSkip 1 (some 1) = (false, true) ∧
      check_plyr_scraped (some 1) ≠ shouldSkip 1 (some 1) := by
  refine ⟨rfl, rfl, ?_⟩
  decide

/-- Claim C2 (amended): no existing record yields `skip = false`; the
next-day-refresh variant realizes the `shouldSkip` contract with
`staleAfterDays = 2` (records 0 or 1 whole days old are skipped, records 2
or more days old have their file deleted and are re-collected), while the
weekly variant realizes it with `staleAfterDays = 7` exactly as claimed
(6 days ago skips, 7 days ago deletes and re-collects). -/
theorem check_plyr_scraped_thresholds :
    (∀ old, check_plyr_scraped old = shouldSkip 2 old) ∧
    (∀ old, check_plyr_scraped_weekly old = shouldSkip 7 old) ∧
    check_plyr_scraped none = (false, false) ∧
    check_plyr_scraped (some 0) = (true, false) ∧
    check_plyr_scraped (some 2) = (false, true) ∧
    check_plyr_scraped_weekly none = (false, false) ∧
    check_plyr_scraped_weekly (some 6) = (true, false) ∧
    check_plyr_scraped_weekly (some 7) = (false, true) := by
  refine ⟨?_, ?_, rfl, rfl, rfl, rfl, rfl, rfl⟩
  · intro old
    cases old with
    | none => rfl
    | some d =>
      simp only [check_plyr_scraped, shouldSkip]
      by_cases h : d > 1
      · rw [if_pos h, if_pos (by omega)]
      · rw [if_neg h, if_neg (by omega)]
  · intro old
    cases old with
    | none => rfl
    | some d => rfl

/-!
Record assembler.  Python strings whose contents are transformed are
modelled as lists of characters, so that `str.replace` with a single-space
pattern and `'-'.join` are exact.
-/

/-- A Python string, as a list of its characters. -/
abbrev PyStr := List Char

/-- `s.replace(' ', '-')`: every space character becomes a dash. -/
def pyReplaceSpace (s : PyStr) : PyStr :=
  s.map fun ch => if ch = ' ' then '-' else ch

/-- The identifier computation of `get_plyr_details`
(`webscraping_project.py` line 539) and `create_plyr_dict`
(`fpl_webscraper.py` line 299):
`' '.join([plyr_team, plyr_pos, plyr_name]).replace(' ', '-')`. -/
def mkUniqueID (plyr_team plyr_pos plyr_name : PyStr) : PyStr :=
  pyReplaceSpace (plyr_team ++ [' '] ++ plyr_pos ++ [' '] ++ plyr_name)

/-- The identity fields that `get_plyr_details` / `create_plyr_dict`
place in the player dictionary. -/
structure PlyrDetails where
  name : PyStr
  uniqueID : PyStr
  uuid : PyStr
  position : PyStr
  team : PyStr
  lastScraped : PyStr
deriving DecidableEq

/-- `create_plyr_dict` / `get_plyr_details`: builds the identity part of
the record.  `uuid4` stands for the value returned by the collaborator's
`uuid.uuid4()` call at this collection event. -/
def create_plyr_dict (plyr_name plyr_pos plyr_team uuid4 timestamp : PyStr) :
    PlyrDetails :=
  { name := plyr_name
    uniqueID := mkUniqueID plyr_team plyr_pos plyr_name
    uuid := uuid4
    position := plyr_pos
    team := plyr_team
    lastScraped := timestamp }

/-- Modelled from the spec's words (EntityRecordAssembler, for the
refinement comparison): join team, position, name in that order with `-`,
with internal whitespace in each field also replaced by `-`. -/
def spec_identifier (team pos name : PyStr) : PyStr :=
  pyReplaceSpace team ++ ['-'] ++ pyReplaceSpace pos ++ ['-'] ++ pyReplaceSpace name

/-- Claim C4: the derived identifier equals team, position and name joined
in that order by `-` with internal spaces in each field replaced by `-`;
assembling the same triple twice yields the same identifier both times,
while the uniqueness tokens of the two calls differ (given that the
uuid generator returned distinct values, which `uuid.uuid4` does up to
negligible collision probability). -/
theorem create_plyr_dict_identifier :
    ∀ team pos name u1 u2 t1 t2 : PyStr,
      (create_plyr_dict name pos team u1 t1).uniqueID =
          spec_identifier team pos name ∧
        (create_plyr_dict name pos team u1 t1).uniqueID =
          (create_plyr_dict name pos team u2 t2).uniqueID ∧
        (u1 ≠ u2 →
          (create_plyr_dict name pos team u1 t1).uuid ≠
            (create_plyr_dict name pos team u2 t2).uuid) := by
  intro team pos name u1 u2 t1 t2
  refine ⟨?_, rfl, ?_⟩
  · simp [create_plyr_dict, mkUniqueID, spec_identifier, pyReplaceSpace]
  · intro hne
    simpa [create_plyr_dict] using hne

theorem create_plyr_dict_identifier_witness :
    (create_plyr_dict "Ederson M.".toList "GK".toList "Man City".toList
          "uuid-one".toList "2022-02-10".toList).uniqueID =
        spec_identifier "Man City".toList "GK".toList "Ederson M.".toList ∧
      (create_plyr_dict "Ederson M.".toList "GK".toList "Man City".toList
            "uuid-one".toList "2022-02-10".toList).uniqueID =
        (create_plyr_dict "Ederson M.".toList "GK".toList "Man City".toList
            "uuid-two".toList "2022-02-11".toList).uniqueID ∧
      (create_plyr_dict "Ederson M.".toList "GK".toList "Man City".toList
            "uuid-one".toList "2022-02-10".toList).uuid ≠
        (create_plyr_dict "Ederson M.".toList "GK".toList "Man City".toList
            "uuid-two".toList "2022-02-11".toList).uuid := by
  have h := create_plyr_dict_identifier "Man City".toList "GK".toList
    "Ederson M.".toList "uuid-one".toList "uuid-two".toList
    "2022-02-10".toList "2022-02-11".toList
  exact ⟨h.1, h.2.1, h.2.2 (by decide)⟩

/-!
Table-section processing.  `get_match_data` / `get_plyr_match_data`
iterate over the section descriptors; for each, locating the section can
raise `NoSuchElementException` (modelled as `lookup k = none`), which the
per-section `except` turns into the sentinel `'No data'`; a located
section yields a token stream fed to the table builder, whose
malformed-stream failure is not caught and aborts the entity.
-/

/-- A table-section value in the assembled record: the sentinel
`'No data'` or a built table. -/
inductive MatchData where
  | noData
  | table (t : List (List String))
deriving DecidableEq

/-- `get_plyr_match_data` (`project/fpl_webscraper.py` lines 489-513) and
`get_match_data` (`webscraping_project.py` lines 722-752): process the
section list in order; a `NoSuchElementException` from the lookup is
caught and replaced by the sentinel, a table-builder failure propagates. -/
def get_plyr_match_data (lookup : String → Option (List Elem)) :
    List String → Except TableErr (List (String × MatchData))
  | [] => .ok []
  | k :: ks =>
    match lookup k with
    | none =>
      match get_plyr_match_data lookup ks with
      | .error e => .error e
      | .ok rest => .ok ((k, .noData) :: rest)
    | some ts =>
      match carve_table ts with
      | .error e => .error e
      | .ok t =>
        match get_plyr_match_data lookup ks with
        | .error e => .error e
        | .ok rest => .ok ((k, .table t) :: rest)

/-- Claim C5: whenever the lookup reports the not-found condition for a
section, the assembled record maps that section's name to the sentinel
`No data`, and the missing section never aborts the entity: any abort is
caused by a section that was found but whose token stream the table
builder rejected. -/
theorem get_plyr_match_data_sentinel :
    ∀ (lookup : String → Option (List Elem)) (sections : List String),
      (∀ rec, get_plyr_match_data lookup sections = .ok rec →
        ∀ k ∈ sections, lookup k = none → (k, MatchData.noData) ∈ rec) ∧
      (∀ e, get_plyr_match_data lookup sections = .error e →
        ∃ k ts, k ∈ sections ∧ lookup k = some ts ∧
          carve_table ts = .error e) := by
  intro lookup sections
  induction sections with
  | nil =>
    refine ⟨?_, ?_⟩
    · intro rec hrec k hk
      exact absurd hk (List.not_mem_nil k)
    · intro e he
      exact Except.noConfusion he
  | cons k0 ks ih =>
    refine ⟨?_, ?_⟩
    · intro rec hrec k hk hnone
      rcases hlk : lookup k0 with _ | ts
      · rcases hrest : get_plyr_match_data lookup ks with e | rest
        · simp only [get_plyr_match_data, hlk, hrest] at hrec
          exact Except.noConfusion hrec
        · simp only [get_plyr_match_data, hlk, hrest] at hrec
          injection hrec with hrec
          subst hrec
          rcases List.mem_cons.mp hk with hkk | hkmem
          · subst hkk
            exact List.mem_cons_self _ _
          · exact List.mem_cons_of_mem _ (ih.1 rest hrest k hkmem hnone)
      · rcases hcv : carve_table ts with e | t
        · simp only [get_plyr_match_data, hlk, hcv] at hrec
          exact Except.noConfusion hrec
        · rcases hrest : get_plyr_match_data lookup ks with e | rest
          · simp only [get_plyr_match_data, hlk, hcv, hrest] at hrec
            exact Except.noConfusion hrec
          · simp only [get_plyr_match_data, hlk, hcv, hrest] at hrec
            injection hrec with hrec
            subst hrec
            rcases List.mem_cons.mp hk with hkk | hkmem
            · subst hkk
              rw [hlk] at hnone
              exact Option.noConfusion hnone
            · exact List.mem_cons_of_mem _ (ih.1 rest hrest k hkmem hnone)
    · intro e he
      cases e
      rcases hlk : lookup k0 with _ | ts
      · rcases hrest : get_plyr_match_data lookup ks with e2 | rest
        · cases e2
          obtain ⟨k, ts, hkmem, hsome, hcv⟩ := ih.2 .malformed hrest
          exact ⟨k, ts, List.mem_cons_of_mem _ hkmem, hsome, hcv⟩
        · simp only [get_plyr_match_data, hlk, hrest] at he
          exact Except.noConfusion he
      · rcases hcv : carve_table ts with e2 | t
        · cases e2
          exact ⟨k0, ts, List.mem_cons_self _ _, hlk, hcv⟩
        · rcases hrest : get_plyr_match_data lookup ks with e2 | rest
          · cases e2
            obtain ⟨k, ts2, hkmem, hsome, hcv2⟩ := ih.2 .malformed hrest
            exact ⟨k, ts2, List.mem_cons_of_mem _ hkmem, hsome, hcv2⟩
          · simp only [get_plyr_match_data, hlk, hcv, hrest] at he
            exact Except.noConfusion he

theorem get_plyr_match_data_sentinel_witness :
    ("Fixtures", MatchData.noData) ∈
      [("2021/22", MatchData.table []), ("Fixtures", MatchData.noData)] :=
  (get_plyr_match_data_sentinel
      (fun k => if k = "Fixtures" then none else some [])
      ["2021/22", "Fixtures"]).1
    [("2021/22", MatchData.table []), ("Fixtures", MatchData.noData)]
    rfl "Fixtures" (by decide) (by decide)

/-!
Crawl cursor.  The instance fields of `WebScraper` that drive the loop in
`webscraping_project.py` (`cycle_scraper` / `scrape` /
`cycle_thru_plyr_list`) become an explicit state.  The automation
collaborator is modelled by `pp` (how many player handles the page listing
returns on each page) and by the reported totals `tp` / `tplyr` (the
integers parsed from the page on the first iteration).  `visited` is a
history variable recording, in order, the page on which each
`cycle_thru_plyr_list` call ran.
-/

structure CrawlState where
  page_counter : Nat
  chk_new_page : Bool
  total_pages : Nat
  total_plyrs : Nat
  plyr_count : Nat
  visited : List Nat
deriving DecidableEq

/-- The `__init__` values: `page_counter = 1`, `chk_new_page = True`,
counters zero. -/
def initState : CrawlState :=
  { page_counter := 1
    chk_new_page := true
    total_pages := 0
    total_plyrs := 0
    plyr_count := 0
    visited := [] }

/-- `cycle_thru_plyr_list` (`webscraping_project.py` lines 457-486) on a
page listing `n` players: each player increments `plyr_count`; in sample
mode the loop clears `chk_new_page` and breaks after the first player. -/
def cycle_thru_plyr_list (sample_mode : Bool) (n : Nat) (s : CrawlState) :
    CrawlState :=
  if sample_mode then
    match n with
    | 0 => s
    | _ + 1 => { s with plyr_count := s.plyr_count + 1, chk_new_page := false }
  else
    { s with plyr_count := s.plyr_count + n }

/-- `scrape` (`webscraping_project.py` lines 167-197): on the first page
read the totals; position onto page `page_counter`; cycle through its
players; then, when not in sample mode, clear `chk_new_page` if this was
the last page and increment `page_counter`. -/
def scrape (sample_mode : Bool) (pp : Nat → Nat) (tp tplyr : Nat)
    (s : CrawlState) : CrawlState :=
  let s1 := if s.page_counter = 1 then
      { s with total_pages := tp, total_plyrs := tplyr }
    else s
  let s2 := { s1 with visited := s1.visited ++ [s1.page_counter] }
  let s3 := cycle_thru_plyr_list sample_mode (pp s2.page_counter) s2
  if sample_mode then s3
  else
    let s4 := if s3.total_pages = s3.page_counter then
        { s3 with chk_new_page := false }
      else s3
    { s4 with page_counter := s4.page_counter + 1 }

/-- `cycle_scraper` (`webscraping_project.py` lines 149-165):
`while chk_new_page: scrape()`, fuelled. -/
def cycle_scraper (sample_mode : Bool) (pp : Nat → Nat) (tp tplyr : Nat) :
    Nat → CrawlState → CrawlState
  | 0, s => s
  | fuel + 1, s =>
    if s.chk_new_page then
      cycle_scraper sample_mode pp tp tplyr fuel (scrape sample_mode pp tp tplyr s)
    else s

theorem cycle_scraper_halt (sample_mode : Bool) (pp : Nat → Nat)
    (tp tplyr : Nat) :
    ∀ (fuel : Nat) (s : CrawlState), s.chk_new_page = false →
      cycle_scraper sample_mode pp tp tplyr fuel s = s := by
  intro fuel
  induction fuel with
  | zero => intro s _; rfl
  | succ n ih =>
    intro s hs
    simp only [cycle_scraper, hs]
    exact if_neg (by simp)

theorem cycle_scraper_step (sample_mode : Bool) (pp : Nat → Nat)
    (tp tplyr fuel : Nat) (s : CrawlState) (h : s.chk_new_page = true) :
    cycle_scraper sample_mode pp tp tplyr (fuel + 1) s =
      cycle_scraper sample_mode pp tp tplyr fuel
        (scrape sample_mode pp tp tplyr s) := by
  simp only [cycle_scraper, h, if_true]

/-- Claim C6: with sample mode off and three reported pages, the crawl
loop visits pages 1, 2 and 3 exactly once each, in that order, and then
halts; with sample mode on it collects exactly one entity from page 1 and
halts, whatever the reported page total. -/
theorem cycle_scraper_termination :
    (∀ (pp : Nat → Nat) (tplyr fuel : Nat), 3 ≤ fuel →
      (cycle_scraper false pp 3 tplyr fuel initState).visited = [1, 2, 3] ∧
      (cycle_scraper false pp 3 tplyr fuel initState).chk_new_page = false) ∧
    (∀ (pp : Nat → Nat) (tp tplyr fuel : Nat), 1 ≤ fuel → 1 ≤ pp 1 →
      (cycle_scraper true pp tp tplyr fuel initState).visited = [1] ∧
      (cycle_scraper true pp tp tplyr fuel initState).plyr_count = 1 ∧
      (cycle_scraper true pp tp tplyr fuel initState).chk_new_page = false) := by
  constructor
  · intro pp tplyr fuel hfuel
    obtain ⟨k, rfl⟩ : ∃ k, fuel = k + 3 := ⟨fuel - 3, by omega⟩
    have hA : scrape false pp 3 tplyr initState =
        ⟨2, true, 3, tplyr, 0 + pp 1, [1]⟩ := rfl
    have hB : scrape false pp 3 tplyr ⟨2, true, 3, tplyr, 0 + pp 1, [1]⟩ =
        ⟨3, true, 3, tplyr, 0 + pp 1 + pp 2, [1, 2]⟩ := rfl
    have hC : scrape false pp 3 tplyr
          ⟨3, true, 3, tplyr, 0 + pp 1 + pp 2, [1, 2]⟩ =
        ⟨4, false, 3, tplyr, 0 + pp 1 + pp 2 + pp 3, [1, 2, 3]⟩ := rfl
    have hrun : cycle_scraper false pp 3 tplyr (k + 3) initState =
        ⟨4, false, 3, tplyr, 0 + pp 1 + pp 2 + pp 3, [1, 2, 3]⟩ := by
      calc cycle_scraper false pp 3 tplyr (k + 3) initState
          = cycle_scraper false pp 3 tplyr (k + 2)
              ⟨2, true, 3, tplyr, 0 + pp 1, [1]⟩ := by
            rw [cycle_scraper_step false pp 3 tplyr (k + 2) initState rfl, hA]
        _ = cycle_scraper false pp 3 tplyr (k + 1)
              ⟨3, true, 3, tplyr, 0 + pp 1 + pp 2, [1, 2]⟩ := by
            rw [cycle_scraper_step false pp 3 tplyr (k + 1) _ rfl, hB]
        _ = cycle_scraper false pp 3 tplyr k
              ⟨4, false, 3, tplyr, 0 + pp 1 + pp 2 + pp 3, [1, 2, 3]⟩ := by
            rw [cycle_scraper_step false pp 3 tplyr k _ rfl, hC]
        _ = ⟨4, false, 3, tplyr, 0 + pp 1 + pp 2 + pp 3, [1, 2, 3]⟩ :=
            cycle_scraper_halt false pp 3 tplyr k _ rfl
    rw [hrun]
    exact ⟨rfl, rfl⟩
  · intro pp tp tplyr fuel hfuel hpp
    obtain ⟨k, rfl⟩ : ∃ k, fuel = k + 1 := ⟨fuel - 1, by omega⟩
    obtain ⟨m, hm⟩ : ∃ m, pp 1 = m + 1 := ⟨pp 1 - 1, by omega⟩
    have hD : scrape true pp tp tplyr initState =
        ⟨1, false, tp, tplyr, 1, [1]⟩ := by
      have hred : scrape true pp tp tplyr initState =
          cycle_thru_plyr_list true (pp 1) ⟨1, true, tp, tplyr, 0, [1]⟩ := rfl
      rw [hred, hm]
      rfl
    have hrun : cycle_scraper true pp tp tplyr (k + 1) initState =
        ⟨1, false, tp, tplyr, 1, [1]⟩ := by
      rw [cycle_scraper_step true pp tp tplyr k initState rfl, hD]
      exact cycle_scraper_halt true pp tp tplyr k _ rfl
    rw [hrun]
    exact ⟨rfl, rfl, rfl⟩

theorem cycle_scraper_termination_witness :
    ((cycle_scraper false (fun _ => 2) 3 10 5 initState).visited = [1, 2, 3] ∧
      (cycle_scraper false (fun _ => 2) 3 10 5 initState).chk_new_page = false) ∧
    ((cycle_scraper true (fun _ => 2) 19 10 5 initState).visited = [1] ∧
      (cycle_scraper true (fun _ => 2) 19 10 5 initState).plyr_count = 1 ∧
      (cycle_scraper true (fun _ => 2) 19 10 5 initState).chk_new_page = false) :=
  ⟨cycle_scraper_termination.1 (fun _ => 2) 10 5 (by omega),
    cycle_scraper_termination.2 (fun _ => 2) 19 10 5 (by omega) (by decide)⟩

/-- Counterexample to claim C7: the crawl loop increments `page_counter`
once more after finishing the last page, so the reachable terminal state
of a 3-page run has `page_counter = 4 > 3 = total_pages`. -/
theorem cycle_scraper_page_counter_cex :
    (cycle_scraper false (fun _ => 0) 3 0 3 initState).page_counter = 4 ∧
      (cycle_scraper false (fun _ => 0) 3 0 3 initState).total_pages = 3 ∧
      (cycle_scraper false (fun _ => 0) 3 0 3 initState).total_pages <
        (cycle_scraper false (fun _ => 0) 3 0 3 initState).page_counter :=
  ⟨rfl, rfl, by decide⟩

theorem scrape_false_eq (pp : Nat → Nat) (tp tplyr : Nat) (s : CrawlState) :
    scrape false pp tp tplyr s =
      { page_counter := s.page_counter + 1
        chk_new_page :=
          if (if s.page_counter = 1 then tp else s.total_pages) = s.page_counter
          then false else s.chk_new_page
        total_pages := if s.page_counter = 1 then tp else s.total_pages
        total_plyrs := if s.page_counter = 1 then tplyr else s.total_plyrs
        plyr_count := s.plyr_count + pp s.page_counter
        visited := s.visited ++ [s.page_counter] } := by
  by_cases hpc : s.page_counter = 1 <;>
    by_cases htc :
        (if s.page_counter = 1 then tp else s.total_pages) = s.page_counter <;>
      simp_all [scrape, cycle_thru_plyr_list]

/-- Claim C7 (amended): with the reported page total at least 1, every
page the loop actually visits is at most `totalPages`, and `pageIndex`
stays at most `totalPages` in every state from which another iteration
will run (`chk_new_page = true`); however, at termination `pageIndex`
has been incremented past the last page, to `totalPages + 1`. -/
theorem cycle_scraper_visited_bounded :
    ∀ (pp : Nat → Nat) (tp tplyr fuel : Nat), 1 ≤ tp →
      (∀ p ∈ (cycle_scraper false pp tp tplyr fuel initState).visited, p ≤ tp) ∧
      ((cycle_scraper false pp tp tplyr fuel initState).chk_new_page = true →
        (cycle_scraper false pp tp tplyr fuel initState).page_counter ≤ tp) := by
  intro pp tp tplyr fuel htp
  have hstep : ∀ s : CrawlState,
      (1 ≤ s.page_counter ∧ (s.chk_new_page = true → s.page_counter ≤ tp) ∧
        (∀ p ∈ s.visited, p ≤ tp) ∧
        (s.page_counter = 1 ∨ s.total_pages = tp)) →
      s.chk_new_page = true →
      (1 ≤ (scrape false pp tp tplyr s).page_counter ∧
        ((scrape false pp tp tplyr s).chk_new_page = true →
          (scrape false pp tp tplyr s).page_counter ≤ tp) ∧
        (∀ p ∈ (scrape false pp tp tplyr s).visited, p ≤ tp) ∧
        ((scrape false pp tp tplyr s).page_counter = 1 ∨
          (scrape false pp tp tplyr s).total_pages = tp)) := by
    intro s h hchk
    obtain ⟨h1, h2, h3, h4⟩ := h
    have hpcle : s.page_counter ≤ tp := h2 hchk
    have htpf : (if s.page_counter = 1 then tp else s.total_pages) = tp := by
      by_cases hpc : s.page_counter = 1
      · rw [if_pos hpc]
      · rw [if_neg hpc]
        rcases h4 with h4 | h4
        · exact absurd h4 hpc
        · exact h4
    rw [scrape_false_eq]
    refine ⟨?_, ?_, ?_, Or.inr htpf⟩
    · show 1 ≤ s.page_counter + 1
      omega
    · show (if (if s.page_counter = 1 then tp else s.total_pages) =
            s.page_counter then false else s.chk_new_page) = true →
          s.page_counter + 1 ≤ tp
      rw [htpf]
      by_cases heq : tp = s.page_counter
      · rw [if_pos heq]
        intro hc
        exact Bool.noConfusion hc
      · rw [if_neg heq]
        intro _
        omega
    · show ∀ p ∈ s.visited ++ [s.page_counter], p ≤ tp
      intro p hp
      simp only [List.mem_append, List.mem_singleton] at hp
      rcases hp with hp | hp
      · exact h3 p hp
      · subst hp
        exact hpcle
  have hrun : ∀ (n : Nat) (s : CrawlState),
      (1 ≤ s.page_counter ∧ (s.chk_new_page = true → s.page_counter ≤ tp) ∧
        (∀ p ∈ s.visited, p ≤ tp) ∧
        (s.page_counter = 1 ∨ s.total_pages = tp)) →
      (1 ≤ (cycle_scraper false pp tp tplyr n s).page_counter ∧
        ((cycle_scraper false pp tp tplyr n s).chk_new_page = true →
          (cycle_scraper false pp tp tplyr n s).page_counter ≤ tp) ∧
        (∀ p ∈ (cycle_scraper false pp tp tplyr n s).visited, p ≤ tp) ∧
        ((cycle_scraper false pp tp tplyr n s).page_counter = 1 ∨
          (cycle_scraper false pp tp tplyr n s).total_pages = tp)) := by
    intro n
    induction n with
    | zero => intro s h; exact h
    | succ m ih =>
      intro s h
      by_cases hchk : s.chk_new_page = true
      · rw [cycle_scraper_step false pp tp tplyr m s hchk]
        exact ih _ (hstep s h hchk)
      · have hfalse : s.chk_new_page = false := by
          revert hchk
          cases s.chk_new_page <;> simp
        rw [cycle_scraper_halt false pp tp tplyr (m + 1) s hfalse]
        exact h
  have hinit : 1 ≤ initState.page_counter ∧
      (initState.chk_new_page = true → initState.page_counter ≤ tp) ∧
      (∀ p ∈ initState.visited, p ≤ tp) ∧
      (initState.page_counter = 1 ∨ initState.total_pages = tp) := by
    refine ⟨le_refl 1, fun _ => htp, ?_, Or.inl rfl⟩
    intro p hp
    exact absurd hp (List.not_mem_nil p)
  have h := hrun fuel initState hinit
  exact ⟨h.2.2.1, h.2.1⟩

theorem cycle_scraper_visited_bounded_witness :
    (∀ p ∈ (cycle_scraper false (fun _ => 0) 3 0 5 initState).visited, p ≤ 3) ∧
      ((cycle_scraper false (fun _ => 0) 3 0 5 initState).chk_new_page = true →
        (cycle_scraper false (fun _ => 0) 3 0 5 initState).page_counter ≤ 3) :=
  cycle_scraper_visited_bounded (fun _ => 0) 3 0 5 (by omega)

/-!
Verification reporter, `verification_report` of `project/report.py` lines
34-77.  `os.walk` is modelled as the ordered list of files it yields; a
file is a `png` image, a `json` record whose loaded dictionary carries the
fields the reporter reads (`ID`, `Name`, `Team`, `Position`, the parsed
`Last Scraped` date, and the dictionary's key count `nFields`), or
anything else.  Dates are encoded as days since the reporter's baseline
`2000-01-01` (the `strptime` seed of `scraped_date`).
-/

structure PlyrRec where
  id : PyStr
  name : PyStr
  team : PyStr
  position : PyStr
  lastScraped : Nat
  nFields : Nat
deriving DecidableEq

inductive CorpusFile where
  | png
  | json (r : PlyrRec)
  | other
deriving DecidableEq

/-- Python's substring test `needle in hay`. -/
def containsSub (hay needle : PyStr) : Bool :=
  hay.tails.any fun t => needle.isPrefixOf t

/-- `plyr_dict['ID'][7:] not in plyr_dict['Name']` (`report.py` line 74). -/
def idNameMismatch (r : PlyrRec) : Bool := ! containsSub r.name (r.id.drop 7)

/-- The appended report line
`f"{ID} = {Name}, {Team}, {Position}\n"` (`report.py` line 75). -/
def mismatchLine (r : PlyrRec) : PyStr :=
  r.id ++ " = ".toList ++ r.name ++ ", ".toList ++ r.team ++
    ", ".toList ++ r.position

/-- The `os.walk` loop of `verification_report`, with its four
accumulators: the mismatch lines appended so far, `json_count`,
`img_count`, and `scraped_date`. -/
def vr_go : List CorpusFile → List PyStr → Nat → Nat → Nat →
    List PyStr × Nat × Nat × Nat
  | [], report, jc, ic, sd => (report, jc, ic, sd)
  | .png :: fs, report, jc, ic, sd => vr_go fs report jc (ic + 1) sd
  | .other :: fs, report, jc, ic, sd => vr_go fs report jc ic sd
  | .json r :: fs, report, jc, ic, sd =>
    vr_go fs
      (if idNameMismatch r then report ++ [mismatchLine r] else report)
      (if r.nFields > 18 then jc + 1 else jc)
      ic
      (if r.lastScraped > sd then r.lastScraped else sd)

/-- `verification_report(dir_path)`: scan every file once, starting from
an empty report, zero counts and the baseline date. -/
def verification_report (files : List CorpusFile) :
    List PyStr × Nat × Nat × Nat :=
  vr_go files [] 0 0 0

/-- The files `os.walk` yields over a record corpus: each record's json
file, and its companion image when it has one. -/
def corpusFiles : List (PlyrRec × Bool) → List CorpusFile
  | [] => []
  | (r, hasImg) :: rest =>
    CorpusFile.json r :: ((if hasImg then [CorpusFile.png] else []) ++
      corpusFiles rest)

def jsonRecs : List CorpusFile → List PlyrRec
  | [] => []
  | .json r :: fs => r :: jsonRecs fs
  | .png :: fs => jsonRecs fs
  | .other :: fs => jsonRecs fs

def pngCount : List CorpusFile → Nat
  | [] => 0
  | .png :: fs => pngCount fs + 1
  | .json _ :: fs => pngCount fs
  | .other :: fs => pngCount fs

theorem vr_go_spec :
    ∀ (files : List CorpusFile) (report : List PyStr) (jc ic sd : Nat),
      vr_go files report jc ic sd =
        (report ++ ((jsonRecs files).filter idNameMismatch).map mismatchLine,
         jc + ((jsonRecs files).filter fun r => r.nFields > 18).length,
         ic + pngCount files,
         (jsonRecs files).foldl
           (fun a r => if r.lastScraped > a then r.lastScraped else a) sd) := by
  intro files
  induction files with
  | nil => intro report jc ic sd; simp [vr_go, jsonRecs, pngCount]
  | cons f fs ih =>
    intro report jc ic sd
    cases f with
    | png =>
      rw [show vr_go (CorpusFile.png :: fs) report jc ic sd =
          vr_go fs report jc (ic + 1) sd from rfl, ih]
      simp only [jsonRecs, pngCount, Prod.mk.injEq, true_and, and_true]
      omega
    | other =>
      rw [show vr_go (CorpusFile.other :: fs) report jc ic sd =
          vr_go fs report jc ic sd from rfl, ih]
      simp [jsonRecs, pngCount]
    | json r =>
      rw [show vr_go (CorpusFile.json r :: fs) report jc ic sd =
          vr_go fs
            (if idNameMismatch r then report ++ [mismatchLine r] else report)
            (if r.nFields > 18 then jc + 1 else jc)
            ic
            (if r.lastScraped > sd then r.lastScraped else sd) from rfl, ih]
      simp only [jsonRecs, pngCount, List.foldl_cons, Prod.mk.injEq,
        true_and, and_true]
      constructor
      · by_cases hm : idNameMismatch r
        · simp [hm, List.filter_cons, List.append_assoc]
        · simp [hm, List.filter_cons]
      · by_cases hn : r.nFields > 18
        · simp only [List.filter_cons]
          simp [hn]
          omega
        · simp only [List.filter_cons]
          simp [hn]

theorem jsonRecs_corpusFiles :
    ∀ corpus : List (PlyrRec × Bool),
      jsonRecs (corpusFiles corpus) = corpus.map Prod.fst := by
  intro corpus
  induction corpus with
  | nil => rfl
  | cons x rest ih =>
    obtain ⟨r, hasImg⟩ := x
    cases hasImg <;> simp [corpusFiles, jsonRecs, ih]

theorem pngCount_corpusFiles :
    ∀ corpus : List (PlyrRec × Bool),
      pngCount (corpusFiles corpus) =
        (corpus.filter fun x => x.2).length := by
  intro corpus
  induction corpus with
  | nil => rfl
  | cons x rest ih =>
    obtain ⟨r, hasImg⟩ := x
    cases hasImg <;> simp [corpusFiles, jsonRecs, pngCount, List.filter_cons, ih]

theorem foldl_date_le (l : List PlyrRec) :
    ∀ a : Nat, a ≤ l.foldl
      (fun a r => if r.lastScraped > a then r.lastScraped else a) a := by
  induction l with
  | nil => intro a; exact le_refl a
  | cons r0 rest ih =>
    intro a
    refine le_trans ?_ (ih _)
    dsimp only
    split <;> omega

theorem foldl_date_mem_le (l : List PlyrRec) :
    ∀ a : Nat, ∀ r ∈ l, r.lastScraped ≤ l.foldl
      (fun a r => if r.lastScraped > a then r.lastScraped else a) a := by
  induction l with
  | nil => intro a r hr; exact absurd hr (List.not_mem_nil r)
  | cons r0 rest ih =>
    intro a r hr
    rcases List.mem_cons.mp hr with hr | hr
    · subst hr
      refine le_trans ?_ (foldl_date_le rest _)
      dsimp only
      split <;> omega
    · exact ih _ r hr

theorem foldl_date_mem (l : List PlyrRec) :
    ∀ a : Nat,
      l.foldl (fun a r => if r.lastScraped > a then r.lastScraped else a) a = a ∨
      ∃ r ∈ l, l.foldl
        (fun a r => if r.lastScraped > a then r.lastScraped else a) a =
          r.lastScraped := by
  induction l with
  | nil => intro a; exact Or.inl rfl
  | cons r0 rest ih =>
    intro a
    rcases ih (if r0.lastScraped > a then r0.lastScraped else a) with h | ⟨r, hr, h⟩
    · by_cases h0 : r0.lastScraped > a
      · right
        refine ⟨r0, List.mem_cons_self _ _, ?_⟩
        simp only [List.foldl_cons]
        rw [h, if_pos h0]
      · left
        simp only [List.foldl_cons]
        rw [h, if_neg h0]
    · right
      exact ⟨r, List.mem_cons_of_mem _ hr, h⟩

/-- Claim C8: the reporter scans every persisted record of the corpus
once; `img_count` equals the number of records with a companion image
file, `json_count` equals the number of records with more than 18 fields
(the minimum expected field count), the reported date is the maximum
`Last Scraped` date seen, and each record whose identifier suffix
(characters from index 7 on) is not a substring of its `Name` contributes
exactly one mismatch line, in corpus order. -/
theorem verification_report_counts :
    ∀ corpus : List (PlyrRec × Bool),
      (verification_report (corpusFiles corpus)).2.2.1 =
        (corpus.filter fun x => x.2).length ∧
      (verification_report (corpusFiles corpus)).2.1 =
        ((corpus.map Prod.fst).filter fun r => r.nFields > 18).length ∧
      (verification_report (corpusFiles corpus)).1 =
        ((corpus.map Prod.fst).filter idNameMismatch).map mismatchLine ∧
      (∀ x ∈ corpus, x.1.lastScraped ≤
        (verification_report (corpusFiles corpus)).2.2.2) ∧
      (corpus ≠ [] →
        (verification_report (corpusFiles corpus)).2.2.2 ∈
          corpus.map fun x => x.1.lastScraped) := by
  intro corpus
  unfold verification_report
  rw [vr_go_spec, jsonRecs_corpusFiles, pngCount_corpusFiles]
  refine ⟨by simp, by simp, by simp, ?_, ?_⟩
  · intro x hx
    exact foldl_date_mem_le (corpus.map Prod.fst) 0 x.1
      (List.mem_map_of_mem Prod.fst hx)
  · intro hne
    rcases foldl_date_mem (corpus.map Prod.fst) 0 with h | ⟨r, hr, h⟩
    · cases corpus with
      | nil => exact absurd rfl hne
      | cons x rest =>
        have hx0 : x.1.lastScraped ≤ 0 := by
          have h2 := foldl_date_mem_le ((x :: rest).map Prod.fst) 0 x.1
            (List.mem_map_of_mem Prod.fst (List.mem_cons_self x rest))
          rw [h] at h2
          exact h2
        rw [h]
        simp only [List.map_cons, List.mem_cons]
        left
        omega
    · obtain ⟨x, hx, hxr⟩ := List.mem_map.mp hr
      dsimp only
      rw [h, ← hxr]
      exact List.mem_map_of_mem (fun x => x.1.lastScraped) hx

theorem verification_report_counts_witness :
    ([(⟨"AAAAAAAB".toList, "C".toList, "T".toList, "P".toList, 5, 20⟩,
        true),
      (⟨"AAAAAAAB".toList, "AB".toList, "T".toList, "P".toList, 9, 19⟩,
        false)] : List (PlyrRec × Bool)) ≠ [] ∧
    (verification_report (corpusFiles
      [(⟨"AAAAAAAB".toList, "C".toList, "T".toList, "P".toList, 5, 20⟩,
          true),
        (⟨"AAAAAAAB".toList, "AB".toList, "T".toList, "P".toList, 9, 19⟩,
          false)])).2.2.2 ∈
      (([(⟨"AAAAAAAB".toList, "C".toList, "T".toList, "P".toList, 5, 20⟩,
          true),
        (⟨"AAAAAAAB".toList, "AB".toList, "T".toList, "P".toList, 9, 19⟩,
          false)] : List (PlyrRec × Bool)).map fun x => x.1.lastScraped) :=
  ⟨by decide,
    (verification_report_counts
      [(⟨"AAAAAAAB".toList, "C".toList, "T".toList, "P".toList, 5, 20⟩,
          true),
        (⟨"AAAAAAAB".toList, "AB".toList, "T".toList, "P".toList, 9, 19⟩,
          false)]).2.2.2.2 (by decide)⟩

/-!
Persistence write path.  `write_json` (`webscraping_project.py` lines
807-821 and `fpl_webscraper.py` lines 500-514) opens the target with mode
`'x'`: exclusive creation, which raises `FileExistsError` when the target
already exists.  The file store is an explicit map from paths to contents;
a raised error is an `Except.error`, surfaced to the caller because
`process_output` wraps the call in no handler.
-/

/-- The persistence failure: the write target already exists. -/
inductive PErr where
  | fileExists
deriving DecidableEq

/-- `write_json(json_file_path)` with `open(json_file_path, 'x')`:
error out if the path is taken, otherwise extend the store. -/
def write_json (fs : String → Option String) (path content : String) :
    Except PErr (String → Option String) :=
  match fs path with
  | some _ => .error .fileExists
  | none => .ok fun p => if p = path then some content else fs p

/-- Claim C9: when the write target already exists, `write_json` raises
the file-exists error, surfaced to the caller, and never returns a store:
the existing contents are not overwritten.  A successful write happens
only on a fresh path, stores the new content there, and leaves every
other path untouched. -/
theorem write_json_no_overwrite :
    (∀ (fs : String → Option String) (path content c : String),
      fs path = some c →
        write_json fs path content = .error .fileExists ∧
        ∀ fs2, write_json fs path content ≠ .ok fs2) ∧
    (∀ (fs : String → Option String) (path content : String) fs2,
      write_json fs path content = .ok fs2 →
        fs path = none ∧ fs2 path = some content ∧
        ∀ p, p ≠ path → fs2 p = fs p) := by
  constructor
  · intro fs path content c hc
    have herr : write_json fs path content = .error .fileExists := by
      unfold write_json
      rw [hc]
    refine ⟨herr, ?_⟩
    intro fs2 hok
    rw [herr] at hok
    exact Except.noConfusion hok
  · intro fs path content fs2 hok
    rcases hfs : fs path with _ | c
    · have : write_json fs path content =
          .ok fun p => if p = path then some content else fs p := by
        unfold write_json
        rw [hfs]
      rw [this] at hok
      injection hok with hok
      subst hok
      refine ⟨rfl, by simp, ?_⟩
      intro p hp
      simp [hp]
    · have : write_json fs path content = .error .fileExists := by
        unfold write_json
        rw [hfs]
      rw [this] at hok
      exact Except.noConfusion hok

theorem write_json_no_overwrite_witness :
    ((fun p => if p = "a_data.json" then some "old" else none) :
        String → Option String) "a_data.json" = some "old" ∧
    write_json (fun p => if p = "a_data.json" then some "old" else none)
        "a_data.json" "new" = .error .fileExists :=
  ⟨by decide,
    (write_json_no_overwrite.1
      (fun p => if p = "a_data.json" then some "old" else none)
      "a_data.json" "new" "old" (by decide)).1⟩

/-!
Attribute-section scan, `get_from_fields` (`project/webscraper.py` lines
343-371).  The loop keeps `name` (the pending heading, initially the
empty string) and a dictionary; a heading-tagged element sets the pending
heading, a value-tagged element commits `data_dict[name] = text` and
resets the pending heading to the empty string, anything else is skipped.
The Python dict is an insertion-ordered association list whose insert
overwrites an existing key in place.
-/

/-- Python dict update `d[k] = v`: overwrite in place if the key exists,
otherwise append. -/
def dictInsert (d : List (String × String)) (k v : String) :
    List (String × String) :=
  if d.any fun p => p.1 == k then
    d.map fun p => if p.1 == k then (k, v) else p
  else d ++ [(k, v)]

/-- Python dict lookup `d[k]`. -/
def dictGet (d : List (String × String)) (k : String) : Option String :=
  (d.find? fun p => p.1 == k).map fun p => p.2

/-- The loop body of `get_from_fields`, carrying the dictionary and the
pending heading `name`. -/
def get_from_fields_go (heading hv : String) :
    List Elem → List (String × String) → String → List (String × String)
  | [], d, _ => d
  | c :: cs, d, name =>
    if c.tag = heading then get_from_fields_go heading hv cs d c.text
    else if c.tag = hv then
      get_from_fields_go heading hv cs (dictInsert d name c.text) ""
    else get_from_fields_go heading hv cs d name

/-- `get_from_fields(key_list)`: scan the flattened children with an
empty dictionary and an empty pending heading. -/
def get_from_fields (heading hv : String) (children : List Elem) :
    List (String × String) :=
  get_from_fields_go heading hv children [] ""

/-- Claim C10: a value token arriving while no heading is pending is
neither dropped nor an error: it is committed under the empty-string key
(both before the first heading and right after a heading/value pair has
been committed, the pending heading is the empty string); consequently the
assembled map can carry the key `""` holding the last such orphan value,
as the concrete stream `[value v1, heading Form, value 4.7, value v3]`
shows. -/
theorem get_from_fields_orphan_value :
    (∀ (heading hv : String) (d : List (String × String))
        (cs : List Elem) (v : String), hv ≠ heading →
      get_from_fields_go heading hv (⟨hv, v⟩ :: cs) d "" =
        get_from_fields_go heading hv cs (dictInsert d "" v) "") ∧
    get_from_fields "h3" "div"
        [⟨"div", "v1"⟩, ⟨"h3", "Form"⟩, ⟨"div", "4.7"⟩, ⟨"div", "v3"⟩] =
      [("", "v3"), ("Form", "4.7")] ∧
    dictGet (get_from_fields "h3" "div"
        [⟨"div", "v1"⟩, ⟨"h3", "Form"⟩, ⟨"div", "4.7"⟩, ⟨"div", "v3"⟩]) "" =
      some "v3" := by
  refine ⟨?_, rfl, rfl⟩
  intro heading hv d cs v hne
  show (if hv = heading then _ else if hv = hv then _ else _) = _
  rw [if_neg hne, if_pos rfl]

theorem get_from_fields_orphan_value_witness :
    get_from_fields_go "h3" "div" [⟨"div", "x"⟩] [] "" =
      get_from_fields_go "h3" "div" [] (dictInsert [] "" "x") "" :=
  get_from_fields_orphan_value.1 "h3" "div" [] [] "x" (by decide)
